import Mathlib

set_option maxHeartbeats 1000000

/-! Shallow embedding of the speaker-recognition server core
(src/server.py and src/migrate_existing.py): the enrollment accumulator,
the fingerprint registry and the identification matcher. Clip files are
modelled by their raw content, embeddings by rational vectors, and the
two external collaborators (transcoder, extractor) by explicit parameters
recording their observable outcome. -/

/-- Content of a clip file on disk. -/
abbrev Clip := String

/-- A voice embedding: a fixed-dimension vector, modelled over the rationals. -/
abbrev Emb := List ℚ

/-- Number of clips needed for enrollment (server.py line 24). -/
def REQUIRED_CLIPS : Nat := 4

/-- Threshold for speaker recognition (server.py line 25, 0.75). -/
def SIMILARITY_THRESHOLD : ℚ := 3 / 4

/-- Number of clips used per speaker by the migration script
(migrate_existing.py line 20). -/
def CLIPS_TO_USE : Nat := 3

/-- One registry record, as written by enroll_speaker (server.py lines 259-263)
and migrate_speaker (migrate_existing.py lines 106-111). -/
structure RegEntry where
  enrolled_date : Nat
  clips_count : Nat
  embedding_file : String
  migrated_from : Option String
deriving DecidableEq

/-- The observable persistent state of the server: the per-user enrollment
clip files (uploads/enrollments/user/clip_i.wav, a slot is none when the
file is absent), the saved embedding files (embeddings/user.npy), and the
registry (embeddings/registry.json as an insertion-ordered map). -/
structure ServerState where
  slots : String → Fin REQUIRED_CLIPS → Option Clip
  embFiles : String → Option Emb
  registry : List (String × RegEntry)

/-- np.dot of two vectors (compute_similarity, server.py lines 146-148). -/
def compute_similarity (e1 e2 : Emb) : ℚ :=
  (List.zipWith (fun a b => a * b) e1 e2).sum

/-- np.mean(embeddings, axis=0): elementwise arithmetic mean of a nonempty
list of equal-length vectors (server.py line 250, migrate_existing.py line 97). -/
def npMean (l : List Emb) : Emb :=
  match l with
  | [] => []
  | e :: _ => (List.range e.length).map fun j =>
      (l.map fun v => v.getD j 0).sum / (l.length : ℚ)

/-- Python dict assignment on an insertion-ordered association list: updating
an existing key keeps its position, a new key is appended at the end. -/
def dictPut (k : String) (v : RegEntry) : List (String × RegEntry) → List (String × RegEntry)
  | [] => [(k, v)]
  | p :: r => if p.1 = k then (k, v) :: r else p :: dictPut k v r

/-- Write (or clear) the clip file of one enrollment slot of one user. -/
def setSlot (s : ServerState) (u : String) (i : Fin REQUIRED_CLIPS) (c : Option Clip) :
    ServerState :=
  { s with slots := fun v j => if v = u ∧ j = i then c else s.slots v j }

/-- Number of clip files present for a user (server.py line 228: the count of
files named clip_* in the user folder). -/
def filledCount (s : ServerState) (u : String) : Nat :=
  ((List.finRange REQUIRED_CLIPS).filter fun i => (s.slots u i).isSome).length

/-- The embeddings collected at commit time: for each slot whose clip file
exists, run the extractor and keep the successful results in slot order
(server.py lines 234-241). -/
def extractedEmbs (extract : Clip → Option Emb) (s : ServerState) (u : String) : List Emb :=
  (List.finRange REQUIRED_CLIPS).filterMap fun i => (s.slots u i).bind extract

/-- Observable outcome of save_uploaded_and_convert (server.py lines 102-144)
for one upload: either the canonical WAV content was produced, or the step
failed; on failure, leftover records what the conversion left at the target
slot path (ffmpeg is invoked with the slot file as its output path, so a
failed conversion may leave partial output there, or nothing). -/
inductive TranscodeResult where
  | ok (c : Clip)
  | failed (leftover : Option Clip)
deriving DecidableEq

/-- Outcome of one enroll_speaker request, past input validation. -/
inductive EnrollResult where
  | transcodeError
  | insufficientData
  | storageError
  | progress (clips_received required_clips : Nat)
  | complete (clips_received required_clips : Nat)
deriving DecidableEq

/-- One enroll_speaker request past input validation (server.py lines 212-283):
store the converted clip at its slot, and when all REQUIRED_CLIPS clip files
are present run the commit sequence: extract embeddings from the present
clips, fail when none succeeds, otherwise save the averaged embedding to the
.npy file and then write the registry entry. The extractor is the parameter
extract, now is the commit timestamp, and registryWriteOk records whether the
registry file write succeeds (a failing write raises and the request returns
a server error, after the .npy file was already written). -/
def submit_clip (extract : Clip → Option Emb) (now : Nat) (registryWriteOk : Bool)
    (s : ServerState) (u : String) (slot : Fin REQUIRED_CLIPS) (tr : TranscodeResult) :
    ServerState × EnrollResult :=
  match tr with
  | .failed leftover =>
      (match leftover with
       | none => s
       | some c => setSlot s u slot (some c),
       EnrollResult.transcodeError)
  | .ok c =>
      let s1 := setSlot s u slot (some c)
      let existing := filledCount s1 u
      if REQUIRED_CLIPS ≤ existing then
        let embs := extractedEmbs extract s1 u
        if embs.length = 0 then (s1, .insufficientData)
        else
          let s2 := { s1 with
            embFiles := fun v => if v = u then some (npMean embs) else s1.embFiles v }
          if registryWriteOk then
            ({ s2 with registry := dictPut u ⟨now, embs.length, u ++ ".npy", none⟩ s2.registry },
             .complete existing REQUIRED_CLIPS)
          else (s2, .storageError)
      else (s1, .progress existing REQUIRED_CLIPS)

/-- Response of the /predict endpoint: prediction is none for Unknown, and
all_similarities lists the per-identity scores in iteration order. -/
structure PredictResponse where
  prediction : Option String
  confidence : ℚ
  all_similarities : List (String × ℚ)
deriving DecidableEq

/-- One iteration of the comparison loop of predict_speaker (server.py lines
356-366): an identity whose embedding file is missing is skipped; otherwise
its dot-product score is recorded and the best match is updated on a strict
improvement. -/
def predStep (embFiles : String → Option Emb) (probe : Emb)
    (acc : Option String × ℚ × List (String × ℚ)) (u : String) :
    Option String × ℚ × List (String × ℚ) :=
  match embFiles u with
  | none => acc
  | some stored =>
      let similarity := compute_similarity probe stored
      if acc.2.1 < similarity then (some u, similarity, acc.2.2 ++ [(u, similarity)])
      else (acc.1, acc.2.1, acc.2.2 ++ [(u, similarity)])

/-- The registry comparison of predict_speaker (server.py lines 340-391), for
a probe embedding that was extracted successfully: on an empty registry return
Unknown with confidence 0.0 at once; otherwise scan the registry in iteration
order starting from best_similarity = -1 and no best match, and accept the
best match exactly when its score reaches SIMILARITY_THRESHOLD. -/
def predict_speaker (s : ServerState) (probe : Emb) : PredictResponse :=
  if s.registry.length = 0 then ⟨none, 0, []⟩
  else
    let r := (s.registry.map Prod.fst).foldl (predStep s.embFiles probe) (none, -1, [])
    ⟨if SIMILARITY_THRESHOLD ≤ r.2.1 then r.1 else none, r.2.1, r.2.2⟩

/-- The /delete-user endpoint (server.py lines 427-457): when the user is
registered, remove its embedding file, its enrollment folder and its registry
entry; otherwise report not found. -/
def delete_user (s : ServerState) (u : String) : ServerState × Bool :=
  if u ∈ s.registry.map Prod.fst then
    ({ slots := fun v => if v = u then fun _ => none else s.slots v,
       embFiles := fun v => if v = u then none else s.embFiles v,
       registry := s.registry.filter fun p => ¬ p.1 = u }, true)
  else (s, false)

/-- Slot contents after migrate_speaker copied the selected clips into the
enrollment folder of the speaker (migrate_existing.py lines 78-84). -/
def migrateSlots (s : ServerState) (u : String) (clips : List Clip) :
    String → Fin REQUIRED_CLIPS → Option Clip :=
  fun v j =>
    if v = u then
      if h : j.val < clips.length then some (clips.get ⟨j.val, h⟩) else s.slots v j
    else s.slots v j

/-- migrate_speaker (migrate_existing.py lines 48-115): wavFiles is the list
of .wav files found in the source folder of the speaker (empty when the
folder is missing or holds none); the first CLIPS_TO_USE of them are copied
into the enrollment slots, each copied clip is run through the extractor, and
with at least one success the averaged embedding and a registry entry carrying
migrated_from are committed. -/
def migrate_speaker (extract : Clip → Option Emb) (now : Nat)
    (s : ServerState) (u : String) (wavFiles : List Clip) :
    ServerState × Bool :=
  if wavFiles.length = 0 then (s, false)
  else
    let clips := wavFiles.take CLIPS_TO_USE
    let s1 := { s with slots := migrateSlots s u clips }
    let embs := clips.filterMap extract
    if embs.length = 0 then (s1, false)
    else
      let s2 := { s1 with
        embFiles := fun v => if v = u then some (npMean embs) else s1.embFiles v }
      ({ s2 with registry := dictPut u ⟨now, embs.length, u ++ ".npy", some u⟩ s2.registry },
       true)

/-- Registry data-model invariant: identity keys are unique, and every entry
carries a clip count between 1 and REQUIRED_CLIPS. -/
def RegInvariant (r : List (String × RegEntry)) : Prop :=
  (r.map Prod.fst).Nodup ∧ ∀ p ∈ r, 1 ≤ p.2.clips_count ∧ p.2.clips_count ≤ REQUIRED_CLIPS

/-- Score assigned by the matcher to an identity: the dot product of the
probe with its stored embedding (the default [] is only reached for
identities without an embedding file, which the loop skips). -/
def simOf (embFiles : String → Option Emb) (probe : Emb) (u : String) : ℚ :=
  compute_similarity probe ((embFiles u).getD [])

/-- Reference form of the best-match scan of predict_speaker: walk the keys
in order, replacing the running best exactly on a strict improvement. -/
def firstBest (f : String → ℚ) : List String → Option String → ℚ → Option String × ℚ
  | [], b, m => (b, m)
  | u :: rest, b, m =>
      if m < f u then firstBest f rest (some u) (f u)
      else firstBest f rest b m

/-- Extractor used by the concrete test scenarios: clip content a maps to the
unit vector [1, 0], clip content b to [0, 1], anything else fails. -/
def exExtract : Clip → Option Emb := fun c =>
  if c = "a" then some [1, 0] else if c = "b" then some [0, 1] else none

/-- Fresh server: no clip files, no embeddings, empty registry. -/
def emptyState : ServerState :=
  { slots := fun _ _ => none, embFiles := fun _ => none, registry := [] }

/-- Scenario state: alice has submitted the first three of the four clips. -/
def sC1 : ServerState :=
  { slots := fun v i => if v = "alice" ∧ i.val < 3 then some "a" else none,
    embFiles := fun _ => none,
    registry := [] }

/-- Scenario state: alice is fully enrolled (all four clip files remain on
disk), her stored embedding is [9, 9] and her registry entry is dated 5. -/
def sC3 : ServerState :=
  { slots := fun v _ => if v = "alice" then some "a" else none,
    embFiles := fun v => if v = "alice" then some [9, 9] else none,
    registry := [("alice", ⟨5, 4, "alice.npy", none⟩)] }

/-- Scenario state: bob has one clip file, with content good, at slot 1. -/
def sC4 : ServerState :=
  { slots := fun v i => if v = "bob" ∧ i.val = 0 then some "good" else none,
    embFiles := fun _ => none,
    registry := [] }

/-- Scenario state: two enrolled identities with unit-length embeddings. -/
def sC2w : ServerState :=
  { slots := fun _ _ => none,
    embFiles := fun v =>
      if v = "alice" then some [1, 0]
      else if v = "bob" then some [4/5, 3/5] else none,
    registry := [("alice", ⟨1, 4, "alice.npy", none⟩), ("bob", ⟨2, 3, "bob.npy", none⟩)] }

/-- Scenario state: a registered identity whose embedding file is missing. -/
def sC10w : ServerState :=
  { slots := fun _ _ => none, embFiles := fun _ => none,
    registry := [("ghost", ⟨1, 2, "ghost.npy", none⟩)] }

/-- Scenario state: carol has submitted three clips whose content no
extractor in the scenario can embed. -/
def sC7w : ServerState :=
  { slots := fun v i => if v = "carol" ∧ i.val < 3 then some "z" else none,
    embFiles := fun _ => none,
    registry := [] }

/-- Scenario state: one registered identity satisfying the data-model
invariant. -/
def sC9w : ServerState :=
  { slots := fun _ _ => none, embFiles := fun _ => none,
    registry := [("alice", ⟨1, 2, "alice.npy", none⟩)] }

theorem firstBest_nil (f : String → ℚ) (b : Option String) (m : ℚ) :
    firstBest f [] b m = (b, m) := rfl

theorem firstBest_cons (f : String → ℚ) (u : String) (rest : List String)
    (b : Option String) (m : ℚ) :
    firstBest f (u :: rest) b m =
      if m < f u then firstBest f rest (some u) (f u) else firstBest f rest b m := rfl

/-- The running best never decreases along the scan. -/
theorem firstBest_le (f : String → ℚ) (keys : List String) :
    ∀ b m, m ≤ (firstBest f keys b m).2 := by
  induction keys with
  | nil => intro b m; rw [firstBest_nil]
  | cons u rest ih =>
      intro b m
      by_cases h : m < f u
      · rw [firstBest_cons, if_pos h]
        exact le_trans (le_of_lt h) (ih (some u) (f u))
      · rw [firstBest_cons, if_neg h]
        exact ih b m

/-- Every scanned score is bounded by the final best. -/
theorem firstBest_mem_le (f : String → ℚ) (keys : List String) :
    ∀ b m, ∀ x ∈ keys, f x ≤ (firstBest f keys b m).2 := by
  induction keys with
  | nil => intro b m x hx; exact absurd hx (List.not_mem_nil x)
  | cons u rest ih =>
      intro b m x hx
      by_cases h : m < f u
      · rw [firstBest_cons, if_pos h]
        rcases List.mem_cons.mp hx with hxu | hxr
        · rw [hxu]; exact firstBest_le f rest (some u) (f u)
        · exact ih (some u) (f u) x hxr
      · rw [firstBest_cons, if_neg h]
        rcases List.mem_cons.mp hx with hxu | hxr
        · rw [hxu]; exact le_trans (le_of_not_lt h) (firstBest_le f rest b m)
        · exact ih b m x hxr

/-- The final best is the initial sentinel or one of the scanned scores. -/
theorem firstBest_eq_or_mem (f : String → ℚ) (keys : List String) :
    ∀ b m, (firstBest f keys b m).2 = m ∨
      ∃ x ∈ keys, f x = (firstBest f keys b m).2 := by
  induction keys with
  | nil => intro b m; exact Or.inl rfl
  | cons u rest ih =>
      intro b m
      by_cases h : m < f u
      · rw [firstBest_cons, if_pos h]
        rcases ih (some u) (f u) with heq | ⟨x, hx, hfx⟩
        · exact Or.inr ⟨u, List.mem_cons_self u rest, heq.symm⟩
        · exact Or.inr ⟨x, List.mem_cons_of_mem u hx, hfx⟩
      · rw [firstBest_cons, if_neg h]
        rcases ih b m with heq | ⟨x, hx, hfx⟩
        · exact Or.inl heq
        · exact Or.inr ⟨x, List.mem_cons_of_mem u hx, hfx⟩

/-- A scan that never sees a strict improvement leaves the best unchanged. -/
theorem firstBest_stable (f : String → ℚ) (keys : List String) :
    ∀ b m, (∀ x ∈ keys, f x ≤ m) → firstBest f keys b m = (b, m) := by
  induction keys with
  | nil => intro b m _; rfl
  | cons u rest ih =>
      intro b m hall
      rw [firstBest_cons, if_neg (not_lt.mpr (hall u (List.mem_cons_self u rest)))]
      exact ih b m fun x hx => hall x (List.mem_cons_of_mem u hx)

/-- When the scan improves on the sentinel, the selected identity is the
first one in order attaining the final best: everything before it scores
strictly less. -/
theorem firstBest_first (f : String → ℚ) (keys : List String) :
    ∀ b m, m < (firstBest f keys b m).2 →
      ∃ pre w post, keys = pre ++ w :: post ∧
        (firstBest f keys b m).1 = some w ∧
        f w = (firstBest f keys b m).2 ∧
        ∀ x ∈ pre, f x < (firstBest f keys b m).2 := by
  induction keys with
  | nil =>
      intro b m h
      rw [firstBest_nil] at h
      exact absurd h (lt_irrefl m)
  | cons u rest ih =>
      intro b m h
      by_cases hu : m < f u
      · rw [firstBest_cons, if_pos hu] at h ⊢
        by_cases h2 : f u < (firstBest f rest (some u) (f u)).2
        · obtain ⟨pre, w, post, hkeys, hb, hw, hpre⟩ := ih (some u) (f u) h2
          refine ⟨u :: pre, w, post, by rw [hkeys]; rfl, hb, hw, ?_⟩
          intro x hx
          rcases List.mem_cons.mp hx with hxu | hxpre
          · rw [hxu]; exact h2
          · exact hpre x hxpre
        · have heq : (firstBest f rest (some u) (f u)).2 = f u :=
            le_antisymm (le_of_not_lt h2) (firstBest_le f rest (some u) (f u))
          have hstable : firstBest f rest (some u) (f u) = (some u, f u) := by
            apply firstBest_stable
            intro x hx
            have hxle := firstBest_mem_le f rest (some u) (f u) x hx
            rw [heq] at hxle
            exact hxle
          refine ⟨[], u, rest, rfl, ?_, ?_, ?_⟩
          · rw [hstable]
          · rw [hstable]
          · intro x hx; exact absurd hx (List.not_mem_nil x)
      · rw [firstBest_cons, if_neg hu] at h ⊢
        obtain ⟨pre, w, post, hkeys, hb, hw, hpre⟩ := ih b m h
        refine ⟨u :: pre, w, post, by rw [hkeys]; rfl, hb, hw, ?_⟩
        intro x hx
        rcases List.mem_cons.mp hx with hxu | hxpre
        · rw [hxu]; exact lt_of_le_of_lt (le_of_not_lt hu) h
        · exact hpre x hxpre

theorem predStep_none {g : String → Option Emb} {p : Emb}
    (acc : Option String × ℚ × List (String × ℚ)) (u : String) (h : g u = none) :
    predStep g p acc u = acc := by
  simp [predStep, h]

theorem predStep_some {g : String → Option Emb} {p : Emb}
    (b : Option String) (m : ℚ) (l : List (String × ℚ)) (u : String) (e : Emb)
    (h : g u = some e) :
    predStep g p (b, m, l) u =
      if m < compute_similarity p e
      then (some u, compute_similarity p e, l ++ [(u, compute_similarity p e)])
      else (b, m, l ++ [(u, compute_similarity p e)]) := by
  simp [predStep, h]

/-- Identities without an embedding file leave the scan state untouched. -/
theorem foldl_predStep_skip (g : String → Option Emb) (p : Emb) (keys : List String) :
    ∀ acc, (∀ u ∈ keys, g u = none) → keys.foldl (predStep g p) acc = acc := by
  induction keys with
  | nil => intro acc _; rfl
  | cons u rest ih =>
      intro acc hall
      rw [List.foldl_cons, predStep_none acc u (hall u (List.mem_cons_self u rest))]
      exact ih acc fun x hx => hall x (List.mem_cons_of_mem u hx)

/-- The score map collects exactly the identities whose embedding file
exists, in iteration order. -/
theorem foldl_predStep_sims (g : String → Option Emb) (p : Emb) (keys : List String) :
    ∀ b m l, (keys.foldl (predStep g p) (b, m, l)).2.2 =
      l ++ (keys.filter fun u => (g u).isSome).map fun u => (u, simOf g p u) := by
  induction keys with
  | nil => intro b m l; simp
  | cons u rest ih =>
      intro b m l
      rw [List.foldl_cons]
      cases hg : g u with
      | none =>
          rw [predStep_none _ u hg, ih b m l, List.filter_cons]
          simp [hg]
      | some e =>
          rw [predStep_some b m l u e hg]
          have hsim : simOf g p u = compute_similarity p e := by simp [simOf, hg]
          by_cases hlt : m < compute_similarity p e
          · rw [if_pos hlt, ih, List.filter_cons]
            simp [hg, hsim]
          · rw [if_neg hlt, ih, List.filter_cons]
            simp [hg, hsim]

/-- On keys that all have an embedding file, the scan of predict_speaker is
the reference scan firstBest together with the full score map. -/
theorem foldl_predStep_eq (g : String → Option Emb) (p : Emb) (keys : List String)
    (hall : ∀ u ∈ keys, (g u).isSome) :
    ∀ b m l, keys.foldl (predStep g p) (b, m, l) =
      ((firstBest (simOf g p) keys b m).1, (firstBest (simOf g p) keys b m).2,
       l ++ keys.map fun u => (u, simOf g p u)) := by
  induction keys with
  | nil => intro b m l; simp [firstBest_nil]
  | cons u rest ih =>
      intro b m l
      obtain ⟨e, hg⟩ := Option.isSome_iff_exists.mp (hall u (List.mem_cons_self u rest))
      have hsim : simOf g p u = compute_similarity p e := by simp [simOf, hg]
      have hrest : ∀ x ∈ rest, (g x).isSome := fun x hx => hall x (List.mem_cons_of_mem u hx)
      rw [List.foldl_cons, predStep_some b m l u e hg]
      by_cases hlt : m < compute_similarity p e
      · have hcond : m < simOf g p u := by rw [hsim]; exact hlt
        rw [if_pos hlt,
            ih hrest (some u) (compute_similarity p e) (l ++ [(u, compute_similarity p e)]),
            firstBest_cons, if_pos hcond, hsim]
        simp [hsim]
      · have hcond : ¬ m < simOf g p u := by rw [hsim]; exact hlt
        rw [if_neg hlt, ih hrest b m (l ++ [(u, compute_similarity p e)]),
            firstBest_cons, if_neg hcond]
        simp [hsim]

/-- Claim C6: on an empty registry, predict_speaker returns the Unknown
prediction with confidence exactly 0 and an empty score map, for every probe
and regardless of any embedding files on disk: the early return fires before
the comparison loop, so no similarity is computed. -/
theorem claim_C6 (s : ServerState) (probe : Emb) (h : s.registry = []) :
    predict_speaker s probe = ⟨none, 0, []⟩ := by
  unfold predict_speaker
  rw [h]
  rfl

/-- Witness for claim C6 on a concrete fresh server. -/
theorem claim_C6_witness : predict_speaker emptyState [1] = ⟨none, 0, []⟩ :=
  claim_C6 emptyState [1] rfl

/-- Claim C10: on a non-empty registry none of whose identities has a
readable embedding file, predict_speaker returns the Unknown prediction with
the initial sentinel -1 as confidence (not 0) and an empty score map; and in
general the score map holds exactly the registered identities whose embedding
file exists, in iteration order — missing files are silently skipped. -/
theorem claim_C10 (s : ServerState) (probe : Emb) (hne : s.registry ≠ []) :
    ((∀ u ∈ s.registry.map Prod.fst, s.embFiles u = none) →
      predict_speaker s probe = ⟨none, -1, []⟩) ∧
    (predict_speaker s probe).all_similarities =
      ((s.registry.map Prod.fst).filter fun u => (s.embFiles u).isSome).map
        fun u => (u, simOf s.embFiles probe u) := by
  have hlen : ¬ s.registry.length = 0 := fun h0 => hne (List.length_eq_zero.mp h0)
  constructor
  · intro hnone
    unfold predict_speaker
    rw [if_neg hlen, foldl_predStep_skip s.embFiles probe _ _ hnone]
    norm_num [SIMILARITY_THRESHOLD]
  · unfold predict_speaker
    rw [if_neg hlen]
    simp only
    rw [foldl_predStep_sims s.embFiles probe _ none (-1) []]
    simp

/-- Witness for claim C10: a registered identity without an embedding file. -/
theorem claim_C10_witness : predict_speaker sC10w [1] = ⟨none, -1, []⟩ :=
  (claim_C10 sC10w [1] (by decide)).1 (by decide)

/-- Claim C2: on a non-empty registry each of whose identities has a stored
embedding file (and under the specification assumption that extractor output
is unit-normalized, taken here as the hypothesis that every score is at least
the initial sentinel -1), predict_speaker records every per-identity dot
product in the score map, its confidence is the maximum score, the selected
identity is the first in registry iteration order attaining that maximum (so
exact ties go to the earlier identity), and it is returned as the prediction
exactly when the maximum reaches SIMILARITY_THRESHOLD; below the threshold
the prediction is Unknown. -/
theorem claim_C2 (s : ServerState) (probe : Emb)
    (hne : s.registry ≠ [])
    (hall : ∀ u ∈ s.registry.map Prod.fst, (s.embFiles u).isSome)
    (hnorm : ∀ u ∈ s.registry.map Prod.fst, -1 ≤ simOf s.embFiles probe u) :
    (predict_speaker s probe).all_similarities =
      (s.registry.map Prod.fst).map (fun u => (u, simOf s.embFiles probe u)) ∧
    (∃ u ∈ s.registry.map Prod.fst,
      simOf s.embFiles probe u = (predict_speaker s probe).confidence) ∧
    (∀ u ∈ s.registry.map Prod.fst,
      simOf s.embFiles probe u ≤ (predict_speaker s probe).confidence) ∧
    (SIMILARITY_THRESHOLD ≤ (predict_speaker s probe).confidence →
      ∃ pre w post, s.registry.map Prod.fst = pre ++ w :: post ∧
        (predict_speaker s probe).prediction = some w ∧
        simOf s.embFiles probe w = (predict_speaker s probe).confidence ∧
        ∀ x ∈ pre, simOf s.embFiles probe x < (predict_speaker s probe).confidence) ∧
    ((predict_speaker s probe).confidence < SIMILARITY_THRESHOLD →
      (predict_speaker s probe).prediction = none) := by
  have hlen : ¬ s.registry.length = 0 := fun h0 => hne (List.length_eq_zero.mp h0)
  have hfold := foldl_predStep_eq s.embFiles probe (s.registry.map Prod.fst) hall
    none (-1) []
  have hresp : predict_speaker s probe =
      ⟨if SIMILARITY_THRESHOLD ≤
          (firstBest (simOf s.embFiles probe) (s.registry.map Prod.fst) none (-1)).2
        then (firstBest (simOf s.embFiles probe) (s.registry.map Prod.fst) none (-1)).1
        else none,
       (firstBest (simOf s.embFiles probe) (s.registry.map Prod.fst) none (-1)).2,
       (s.registry.map Prod.fst).map fun u => (u, simOf s.embFiles probe u)⟩ := by
    unfold predict_speaker
    rw [if_neg hlen]
    simp only
    rw [hfold]
    simp
  rw [hresp]
  refine ⟨rfl, ?_, ?_, ?_, ?_⟩
  · rcases firstBest_eq_or_mem (simOf s.embFiles probe) (s.registry.map Prod.fst)
      none (-1) with hm | ⟨x, hx, hfx⟩
    · obtain ⟨u0, rest0, hk⟩ := List.exists_cons_of_ne_nil
        (fun h0 => hne (List.map_eq_nil_iff.mp h0))
      have hu0 : u0 ∈ s.registry.map Prod.fst := by rw [hk]; exact List.mem_cons_self u0 rest0
      refine ⟨u0, hu0, le_antisymm ?_ ?_⟩
      · exact firstBest_mem_le (simOf s.embFiles probe) _ none (-1) u0 hu0
      · rw [hm]; exact hnorm u0 hu0
    · exact ⟨x, hx, hfx⟩
  · intro u hu
    exact firstBest_mem_le (simOf s.embFiles probe) _ none (-1) u hu
  · intro hth
    have hgt : (-1 : ℚ) <
        (firstBest (simOf s.embFiles probe) (s.registry.map Prod.fst) none (-1)).2 := by
      have : (-1 : ℚ) < SIMILARITY_THRESHOLD := by norm_num [SIMILARITY_THRESHOLD]
      exact lt_of_lt_of_le this hth
    obtain ⟨pre, w, post, hkeys, hb, hw, hpre⟩ :=
      firstBest_first (simOf s.embFiles probe) (s.registry.map Prod.fst) none (-1) hgt
    exact ⟨pre, w, post, hkeys, by rw [if_pos hth]; exact hb, hw, hpre⟩
  · intro hth
    rw [if_neg (not_le.mpr hth)]

/-- Witness for claim C2 on a registry with two unit-normalized identities:
the score map holds both dot products. -/
theorem claim_C2_witness :
    (predict_speaker sC2w [1, 0]).all_similarities =
      (sC2w.registry.map Prod.fst).map (fun u => (u, simOf sC2w.embFiles [1, 0] u)) :=
  (claim_C2 sC2w [1, 0] (by decide) (by decide)
    (by simp [sC2w, simOf, compute_similarity]; norm_num)).1

theorem getD_range_map (f : Nat → ℚ) (n j : Nat) (h : j < n) :
    ((List.range n).map f).getD j 0 = f j := by
  rw [List.getD_eq_getElem?_getD, List.getElem?_map, List.getElem?_range h]
  rfl

/-- The elementwise mean of a nonempty list of vectors of dimension d has
dimension d, and its component j is the sum of the component j of the
vectors divided by how many vectors there are. -/
theorem npMean_spec (l : List Emb) (d : Nat) (hl : l ≠ [])
    (hdim : ∀ e ∈ l, e.length = d) :
    (npMean l).length = d ∧
    ∀ j < d, (npMean l).getD j 0 =
      (l.map fun v => v.getD j 0).sum / (l.length : ℚ) := by
  cases l with
  | nil => exact absurd rfl hl
  | cons e rest =>
      have hd : e.length = d := hdim e (List.mem_cons_self e rest)
      constructor
      · simp [npMean, hd]
      · intro j hj
        have hj2 : j < e.length := by rw [hd]; exact hj
        show ((List.range e.length).map fun j =>
          ((e :: rest).map fun v => v.getD j 0).sum / ((e :: rest).length : ℚ)).getD j 0 = _
        rw [getD_range_map _ _ j hj2]

/-- Overwriting the same slot twice keeps only the second write. -/
theorem setSlot_setSlot (s : ServerState) (u : String) (i : Fin REQUIRED_CLIPS)
    (a b : Option Clip) : setSlot (setSlot s u i a) u i b = setSlot s u i b := by
  unfold setSlot
  congr 1
  funext v j
  by_cases h : v = u ∧ j = i
  · simp [h]
  · simp [h]

/-- The clip-file count of a user does not depend on which content fills a
given slot. -/
theorem filledCount_setSlot_some (s : ServerState) (u : String)
    (i : Fin REQUIRED_CLIPS) (a b : Clip) :
    filledCount (setSlot s u i (some a)) u = filledCount (setSlot s u i (some b)) u := by
  unfold filledCount setSlot
  congr 1
  apply List.filter_congr
  intro j _
  by_cases h : j = i
  · simp [h]
  · simp [h]

/-- Claim C1: when the commit sequence runs (all REQUIRED_CLIPS clip files
present after this submission) and at least one extraction succeeds, the
fingerprint written to the embedding file and referenced by the registry
entry is exactly the elementwise arithmetic mean of the successfully
extracted vectors: each component is that component summed over the k
successful vectors divided by k, and failed extractions contribute nothing
(extractedEmbs keeps exactly the successful results). -/
theorem claim_C1 (extract : Clip → Option Emb) (now : Nat) (s : ServerState)
    (u : String) (slot : Fin REQUIRED_CLIPS) (c : Clip) (d : Nat)
    (hfull : REQUIRED_CLIPS ≤ filledCount (setSlot s u slot (some c)) u)
    (hne : extractedEmbs extract (setSlot s u slot (some c)) u ≠ [])
    (hdim : ∀ e ∈ extractedEmbs extract (setSlot s u slot (some c)) u, e.length = d) :
    (submit_clip extract now true s u slot (.ok c)).1.embFiles u =
      some (npMean (extractedEmbs extract (setSlot s u slot (some c)) u)) ∧
    (submit_clip extract now true s u slot (.ok c)).1.registry =
      dictPut u ⟨now, (extractedEmbs extract (setSlot s u slot (some c)) u).length,
        u ++ ".npy", none⟩ s.registry ∧
    (submit_clip extract now true s u slot (.ok c)).2 =
      .complete (filledCount (setSlot s u slot (some c)) u) REQUIRED_CLIPS ∧
    (npMean (extractedEmbs extract (setSlot s u slot (some c)) u)).length = d ∧
    ∀ j < d, (npMean (extractedEmbs extract (setSlot s u slot (some c)) u)).getD j 0 =
      ((extractedEmbs extract (setSlot s u slot (some c)) u).map fun v => v.getD j 0).sum /
        ((extractedEmbs extract (setSlot s u slot (some c)) u).length : ℚ) := by
  have hlen : ¬ (extractedEmbs extract (setSlot s u slot (some c)) u).length = 0 :=
    fun h0 => hne (List.length_eq_zero.mp h0)
  have hstep : submit_clip extract now true s u slot (.ok c) =
      ({ setSlot s u slot (some c) with
          embFiles := fun v =>
            if v = u then some (npMean (extractedEmbs extract (setSlot s u slot (some c)) u))
            else (setSlot s u slot (some c)).embFiles v,
          registry := dictPut u
            ⟨now, (extractedEmbs extract (setSlot s u slot (some c)) u).length,
              u ++ ".npy", none⟩ (setSlot s u slot (some c)).registry },
       .complete (filledCount (setSlot s u slot (some c)) u) REQUIRED_CLIPS) := by
    simp only [submit_clip]
    rw [if_pos hfull, if_neg hlen]
    rfl
  obtain ⟨hlen2, hcomp⟩ := npMean_spec
    (extractedEmbs extract (setSlot s u slot (some c)) u) d hne hdim
  refine ⟨?_, ?_, ?_, hlen2, hcomp⟩
  · rw [hstep]; simp
  · rw [hstep]; rfl
  · rw [hstep]

/-- Witness for claim C1: alice has three clips of content a on file, the
fourth submission (content b) completes enrollment, and the stored
fingerprint is the mean of the four extracted vectors. -/
theorem claim_C1_witness :
    (submit_clip exExtract 10 true sC1 "alice" ⟨3, by decide⟩ (.ok "b")).1.embFiles "alice" =
      some (npMean (extractedEmbs exExtract
        (setSlot sC1 "alice" ⟨3, by decide⟩ (some "b")) "alice")) :=
  (claim_C1 exExtract 10 sC1 "alice" ⟨3, by decide⟩ "b" 2
    (by decide) (by decide) (by decide)).1

/-- Claim C7: when the commit sequence extracts zero vectors, the request
fails with the insufficient-data error, the registry and the embedding files
are untouched, and every clip file is preserved (the slot just written holds
the newly submitted clip, every other slot of every user is unchanged), so
the caller can resubmit the failing clips. -/
theorem claim_C7 (extract : Clip → Option Emb) (now : Nat) (registryWriteOk : Bool)
    (s : ServerState) (u : String) (slot : Fin REQUIRED_CLIPS) (c : Clip)
    (hfull : REQUIRED_CLIPS ≤ filledCount (setSlot s u slot (some c)) u)
    (hzero : extractedEmbs extract (setSlot s u slot (some c)) u = []) :
    submit_clip extract now registryWriteOk s u slot (.ok c) =
      (setSlot s u slot (some c), .insufficientData) ∧
    (submit_clip extract now registryWriteOk s u slot (.ok c)).1.registry = s.registry ∧
    (submit_clip extract now registryWriteOk s u slot (.ok c)).1.embFiles = s.embFiles ∧
    (submit_clip extract now registryWriteOk s u slot (.ok c)).1.slots u slot = some c ∧
    ∀ v i, ¬ (v = u ∧ i = slot) →
      (submit_clip extract now registryWriteOk s u slot (.ok c)).1.slots v i = s.slots v i := by
  have hlen : (extractedEmbs extract (setSlot s u slot (some c)) u).length = 0 := by
    rw [hzero]; rfl
  have hstep : submit_clip extract now registryWriteOk s u slot (.ok c) =
      (setSlot s u slot (some c), .insufficientData) := by
    simp only [submit_clip]
    rw [if_pos hfull, if_pos hlen]
  refine ⟨hstep, ?_, ?_, ?_, ?_⟩
  · rw [hstep]; rfl
  · rw [hstep]; rfl
  · rw [hstep]; simp [setSlot]
  · intro v i hvi
    rw [hstep]
    simp only [setSlot]
    rw [if_neg hvi]

/-- Witness for claim C7: carol has three clips of unembeddable content z,
the fourth submission completes the slots but every extraction fails. -/
theorem claim_C7_witness :
    submit_clip exExtract 0 true sC7w "carol" ⟨3, by decide⟩ (.ok "z") =
      (setSlot sC7w "carol" ⟨3, by decide⟩ (some "z"), .insufficientData) :=
  (claim_C7 exExtract 0 true sC7w "carol" ⟨3, by decide⟩ "z" (by decide) (by decide)).1

/-- Claim C8: submitting to an already-filled slot before completion
overwrites it, last write wins: when the first submission leaves the user
short of REQUIRED_CLIPS, running the same submission again with different
content yields exactly the state and response of running only the second
submission (so only the second content can contribute to any later commit),
the slot holds the second content, and the filled-slot count is unchanged by
the resubmission. -/
theorem claim_C8 (extract : Clip → Option Emb) (now : Nat) (registryWriteOk : Bool)
    (s : ServerState) (u : String) (slot : Fin REQUIRED_CLIPS) (c1 c2 : Clip)
    (hlt : filledCount (setSlot s u slot (some c1)) u < REQUIRED_CLIPS) :
    submit_clip extract now registryWriteOk s u slot (.ok c1) =
      (setSlot s u slot (some c1),
       .progress (filledCount (setSlot s u slot (some c1)) u) REQUIRED_CLIPS) ∧
    submit_clip extract now registryWriteOk
        (submit_clip extract now registryWriteOk s u slot (.ok c1)).1 u slot (.ok c2) =
      submit_clip extract now registryWriteOk s u slot (.ok c2) ∧
    (submit_clip extract now registryWriteOk
        (submit_clip extract now registryWriteOk s u slot (.ok c1)).1 u slot
        (.ok c2)).1.slots u slot = some c2 ∧
    filledCount (submit_clip extract now registryWriteOk
        (submit_clip extract now registryWriteOk s u slot (.ok c1)).1 u slot
        (.ok c2)).1 u =
      filledCount (submit_clip extract now registryWriteOk s u slot (.ok c1)).1 u := by
  have hlt2 : filledCount (setSlot s u slot (some c2)) u < REQUIRED_CLIPS := by
    rw [filledCount_setSlot_some s u slot c2 c1]; exact hlt
  have h1 : submit_clip extract now registryWriteOk s u slot (.ok c1) =
      (setSlot s u slot (some c1),
       .progress (filledCount (setSlot s u slot (some c1)) u) REQUIRED_CLIPS) := by
    simp only [submit_clip]
    rw [if_neg (not_le.mpr hlt)]
  have h3 : submit_clip extract now registryWriteOk s u slot (.ok c2) =
      (setSlot s u slot (some c2),
       .progress (filledCount (setSlot s u slot (some c2)) u) REQUIRED_CLIPS) := by
    simp only [submit_clip]
    rw [if_neg (not_le.mpr hlt2)]
  have h2 : submit_clip extract now registryWriteOk
      (submit_clip extract now registryWriteOk s u slot (.ok c1)).1 u slot (.ok c2) =
      submit_clip extract now registryWriteOk s u slot (.ok c2) := by
    rw [h1]
    simp only [submit_clip]
    rw [setSlot_setSlot, filledCount_setSlot_some s u slot c2 c2]
  refine ⟨h1, h2, ?_, ?_⟩
  · rw [h2, h3]
    simp [setSlot]
  · rw [h2, h3, h1]
    exact filledCount_setSlot_some s u slot c2 c1

/-- Witness for claim C8: two submissions to the first slot of a fresh user:
the pair of requests is equivalent to the second request alone. -/
theorem claim_C8_witness :
    submit_clip exExtract 0 true
        (submit_clip exExtract 0 true emptyState "dave" ⟨0, by decide⟩ (.ok "a")).1
        "dave" ⟨0, by decide⟩ (.ok "b") =
      submit_clip exExtract 0 true emptyState "dave" ⟨0, by decide⟩ (.ok "b") :=
  (claim_C8 exExtract 0 true emptyState "dave" ⟨0, by decide⟩ "a" "b" (by decide)).2.1

/-- Claim C3 counterexample: the commit is not atomic as claimed. Starting
from alice enrolled with fingerprint [9, 9] (registry entry dated 5), a
re-enrolling submission whose registry write fails still overwrites the
embedding file: the operation reports the storage failure and the registry
keeps the stale entry, yet the fingerprint of the failed commit ([3/4, 1/4])
is on disk and from then on determines the identify response, so state of
the failed commit is observable afterwards. -/
theorem claim_C3_counterexample :
    (submit_clip exExtract 99 false sC3 "alice" ⟨0, by decide⟩ (.ok "b")).2 =
      EnrollResult.storageError ∧
    (submit_clip exExtract 99 false sC3 "alice" ⟨0, by decide⟩ (.ok "b")).1.registry =
      sC3.registry ∧
    (submit_clip exExtract 99 false sC3 "alice" ⟨0, by decide⟩ (.ok "b")).1.embFiles "alice" =
      some [3/4, 1/4] ∧
    ¬ (submit_clip exExtract 99 false sC3 "alice" ⟨0, by decide⟩ (.ok "b")).1.embFiles "alice" =
      sC3.embFiles "alice" ∧
    predict_speaker (submit_clip exExtract 99 false sC3 "alice" ⟨0, by decide⟩ (.ok "b")).1
      [1, 0] = ⟨some "alice", 3/4, [("alice", 3/4)]⟩ ∧
    ¬ predict_speaker (submit_clip exExtract 99 false sC3 "alice" ⟨0, by decide⟩ (.ok "b")).1
      [1, 0] = predict_speaker sC3 [1, 0] := by
  have hembs : extractedEmbs exExtract
      (setSlot sC3 "alice" ⟨0, by decide⟩ (some "b")) "alice" =
      [[0, 1], [1, 0], [1, 0], [1, 0]] := by decide
  have hmean : npMean [[0, 1], [1, 0], [1, 0], [1, 0]] = [3/4, 1/4] := by
    simp [npMean, List.range_succ]
    norm_num
  have hemb : (submit_clip exExtract 99 false sC3 "alice" ⟨0, by decide⟩
      (.ok "b")).1.embFiles "alice" = some [3/4, 1/4] := by
    simp only [submit_clip]
    rw [if_pos (by decide), if_neg (by decide), hembs, hmean]
    simp
  have hreg : (submit_clip exExtract 99 false sC3 "alice" ⟨0, by decide⟩
      (.ok "b")).1.registry = [("alice", ⟨5, 4, "alice.npy", none⟩)] := by decide
  have hcs : compute_similarity [1, 0] [3/4, 1/4] = 3/4 := by
    norm_num [compute_similarity]
  have hpred : predict_speaker (submit_clip exExtract 99 false sC3 "alice" ⟨0, by decide⟩
      (.ok "b")).1 [1, 0] = ⟨some "alice", 3/4, [("alice", 3/4)]⟩ := by
    unfold predict_speaker
    rw [hreg]
    simp only [List.map_cons, List.map_nil, List.length_cons, List.length_nil,
      List.foldl_cons, List.foldl_nil]
    rw [predStep_some none (-1) [] "alice" [3/4, 1/4] hemb, hcs,
      if_pos (by norm_num : (-1 : ℚ) < 3/4)]
    norm_num [SIMILARITY_THRESHOLD]
  have hold : predict_speaker sC3 [1, 0] = ⟨some "alice", 9, [("alice", 9)]⟩ := by
    have hemb9 : sC3.embFiles "alice" = some [9, 9] := by decide
    have hcs9 : compute_similarity [1, 0] [9, 9] = 9 := by norm_num [compute_similarity]
    unfold predict_speaker
    have hreg9 : sC3.registry = [("alice", ⟨5, 4, "alice.npy", none⟩)] := rfl
    rw [hreg9]
    simp only [List.map_cons, List.map_nil, List.length_cons, List.length_nil,
      List.foldl_cons, List.foldl_nil]
    rw [predStep_some none (-1) [] "alice" [9, 9] hemb9, hcs9,
      if_pos (by norm_num : (-1 : ℚ) < 9)]
    norm_num [SIMILARITY_THRESHOLD]
  refine ⟨by decide, by decide, hemb, ?_, hpred, ?_⟩
  · rw [hemb]
    have : sC3.embFiles "alice" = some [9, 9] := by decide
    rw [this]
    simp
    norm_num
  · rw [hpred, hold]
    simp
    norm_num

/-- Claim C3 amended: the registry entry (metadata and embedding-file
reference) becomes visible in a single registry put; when the registry write
fails the request fails with a server error (modelling StorageError) and the
registry is exactly as before — a never-enrolled identity stays absent, so
it remains COLLECTING. However the embedding file is written before the
registry put, so after the failure the fingerprint of the failed commit
remains on disk (other identities keep their embedding files untouched);
for a previously enrolled identity the matcher will observably use it. -/
theorem claim_C3 (extract : Clip → Option Emb) (now : Nat) (s : ServerState)
    (u : String) (slot : Fin REQUIRED_CLIPS) (c : Clip)
    (hfull : REQUIRED_CLIPS ≤ filledCount (setSlot s u slot (some c)) u)
    (hne : extractedEmbs extract (setSlot s u slot (some c)) u ≠ []) :
    (submit_clip extract now false s u slot (.ok c)).2 = EnrollResult.storageError ∧
    (submit_clip extract now false s u slot (.ok c)).1.registry = s.registry ∧
    (submit_clip extract now false s u slot (.ok c)).1.embFiles u =
      some (npMean (extractedEmbs extract (setSlot s u slot (some c)) u)) ∧
    ∀ v, ¬ v = u →
      (submit_clip extract now false s u slot (.ok c)).1.embFiles v = s.embFiles v := by
  have hlen : ¬ (extractedEmbs extract (setSlot s u slot (some c)) u).length = 0 :=
    fun h0 => hne (List.length_eq_zero.mp h0)
  have hstep : submit_clip extract now false s u slot (.ok c) =
      ({ setSlot s u slot (some c) with
          embFiles := fun v =>
            if v = u then some (npMean (extractedEmbs extract (setSlot s u slot (some c)) u))
            else (setSlot s u slot (some c)).embFiles v },
       EnrollResult.storageError) := by
    simp only [submit_clip]
    rw [if_pos hfull, if_neg hlen]
    rfl
  refine ⟨?_, ?_, ?_, ?_⟩
  · rw [hstep]
  · rw [hstep]; rfl
  · rw [hstep]; simp
  · intro v hv
    rw [hstep]
    show (if v = u then _ else (setSlot s u slot (some c)).embFiles v) = s.embFiles v
    rw [if_neg hv]
    rfl

/-- Witness for the amended claim C3 on the concrete re-enrollment of alice
with a failing registry write. -/
theorem claim_C3_witness :
    (submit_clip exExtract 99 false sC3 "alice" ⟨0, by decide⟩ (.ok "b")).2 =
      EnrollResult.storageError ∧
    (submit_clip exExtract 99 false sC3 "alice" ⟨0, by decide⟩ (.ok "b")).1.registry =
      sC3.registry :=
  ⟨(claim_C3 exExtract 99 sC3 "alice" ⟨0, by decide⟩ "b" (by decide) (by decide)).1,
   (claim_C3 exExtract 99 sC3 "alice" ⟨0, by decide⟩ "b" (by decide) (by decide)).2.1⟩

/-- Claim C4 counterexample: a failed transcode can modify the targeted slot.
bob holds clip content good at slot 1; a resubmission to that slot whose
conversion fails with partial output junk left at the slot path returns the
transcode error but replaces the previous slot content, so the slot is not
exactly what it was before the call. -/
theorem claim_C4_counterexample :
    (submit_clip exExtract 0 true sC4 "bob" ⟨0, by decide⟩ (.failed (some "junk"))).2 =
      EnrollResult.transcodeError ∧
    (submit_clip exExtract 0 true sC4 "bob" ⟨0, by decide⟩
      (.failed (some "junk"))).1.slots "bob" ⟨0, by decide⟩ = some "junk" ∧
    ¬ (submit_clip exExtract 0 true sC4 "bob" ⟨0, by decide⟩
      (.failed (some "junk"))).1.slots "bob" ⟨0, by decide⟩ =
      sC4.slots "bob" ⟨0, by decide⟩ := by decide

/-- Claim C4 amended: on transcoder failure the request fails with the
transcode error and no embedding file or registry state changes; every slot
other than the targeted one (of this and of every other identity) is exactly
as before. The targeted slot itself is only guaranteed unchanged when the
failed conversion leaves no output at the slot path, since ffmpeg writes
directly to it. -/
theorem claim_C4 (extract : Clip → Option Emb) (now : Nat) (registryWriteOk : Bool)
    (s : ServerState) (u : String) (slot : Fin REQUIRED_CLIPS) (leftover : Option Clip) :
    (submit_clip extract now registryWriteOk s u slot (.failed leftover)).2 =
      EnrollResult.transcodeError ∧
    (submit_clip extract now registryWriteOk s u slot (.failed leftover)).1.embFiles =
      s.embFiles ∧
    (submit_clip extract now registryWriteOk s u slot (.failed leftover)).1.registry =
      s.registry ∧
    (∀ v i, ¬ (v = u ∧ i = slot) →
      (submit_clip extract now registryWriteOk s u slot (.failed leftover)).1.slots v i =
        s.slots v i) ∧
    (leftover = none →
      (submit_clip extract now registryWriteOk s u slot (.failed leftover)).1 = s) := by
  cases leftover with
  | none => exact ⟨rfl, rfl, rfl, fun v i _ => rfl, fun _ => rfl⟩
  | some junk =>
      refine ⟨rfl, rfl, rfl, ?_, ?_⟩
      · intro v i h
        show (if v = u ∧ i = slot then some junk else s.slots v i) = s.slots v i
        rw [if_neg h]
      · intro h
        exact absurd h (Option.some_ne_none junk)

/-- Witness for the amended claim C4: a failed transcode that leaves no
output keeps the whole state unchanged. -/
theorem claim_C4_witness :
    (submit_clip exExtract 0 true sC4 "bob" ⟨1, by decide⟩ (.failed none)).1 = sC4 :=
  (claim_C4 exExtract 0 true sC4 "bob" ⟨1, by decide⟩ none).2.2.2.2 rfl

/-- Claim C5 counterexample: the commit sequence is re-triggered by a mere
resubmission with no reset. sC3 is the state right after a completed
enrollment of alice (registry entry dated 5, all four clip files still on
disk). One further submission for alice immediately re-runs the commit:
the response reports completion again and the registry entry is rewritten
with the new date 99. -/
theorem claim_C5_counterexample :
    (submit_clip exExtract 99 true sC3 "alice" ⟨0, by decide⟩ (.ok "a")).2 =
      EnrollResult.complete 4 4 ∧
    (submit_clip exExtract 99 true sC3 "alice" ⟨0, by decide⟩ (.ok "a")).1.registry =
      [("alice", ⟨99, 4, "alice.npy", none⟩)] ∧
    ¬ (submit_clip exExtract 99 true sC3 "alice" ⟨0, by decide⟩ (.ok "a")).1.registry =
      sC3.registry := by decide

/-- Claim C5 amended: completion does not clear the clip files, so for an
identity whose four clip files are all present (the state a COMPLETE
identity is left in), any subsequent successful submission with at least one
successful extraction re-triggers the whole commit sequence and rewrites the
registry entry (fresh date, fresh count), with no reset required. -/
theorem claim_C5 (extract : Clip → Option Emb) (now : Nat) (s : ServerState)
    (u : String) (slot : Fin REQUIRED_CLIPS) (c : Clip)
    (hfilled : ∀ i, ((s.slots u i).isSome : Bool))
    (hne : extractedEmbs extract (setSlot s u slot (some c)) u ≠ []) :
    (submit_clip extract now true s u slot (.ok c)).2 =
      EnrollResult.complete REQUIRED_CLIPS REQUIRED_CLIPS ∧
    (submit_clip extract now true s u slot (.ok c)).1.registry =
      dictPut u ⟨now, (extractedEmbs extract (setSlot s u slot (some c)) u).length,
        u ++ ".npy", none⟩ s.registry := by
  have hlen : ¬ (extractedEmbs extract (setSlot s u slot (some c)) u).length = 0 :=
    fun h0 => hne (List.length_eq_zero.mp h0)
  have hfull4 : filledCount (setSlot s u slot (some c)) u = REQUIRED_CLIPS := by
    unfold filledCount
    rw [List.filter_eq_self.mpr ?_]
    · exact List.length_finRange REQUIRED_CLIPS
    · intro i _
      show ((if u = u ∧ i = slot then some c else s.slots u i).isSome : Bool) = true
      by_cases h : i = slot
      · rw [if_pos ⟨rfl, h⟩]; rfl
      · rw [if_neg (fun hc => h hc.2)]; exact hfilled i
  have hstep : submit_clip extract now true s u slot (.ok c) =
      ({ setSlot s u slot (some c) with
          embFiles := fun v =>
            if v = u then some (npMean (extractedEmbs extract (setSlot s u slot (some c)) u))
            else (setSlot s u slot (some c)).embFiles v,
          registry := dictPut u
            ⟨now, (extractedEmbs extract (setSlot s u slot (some c)) u).length,
              u ++ ".npy", none⟩ (setSlot s u slot (some c)).registry },
       EnrollResult.complete (filledCount (setSlot s u slot (some c)) u) REQUIRED_CLIPS) := by
    simp only [submit_clip]
    rw [if_pos (le_of_eq hfull4.symm), if_neg hlen]
    rfl
  constructor
  · rw [hstep]
    show EnrollResult.complete (filledCount (setSlot s u slot (some c)) u) REQUIRED_CLIPS =
      EnrollResult.complete REQUIRED_CLIPS REQUIRED_CLIPS
    rw [hfull4]
  · rw [hstep]; rfl

/-- Witness for the amended claim C5: one resubmission for the
already-complete alice yields a fresh completed commit. -/
theorem claim_C5_witness :
    (submit_clip exExtract 99 true sC3 "alice" ⟨0, by decide⟩ (.ok "a")).2 =
      EnrollResult.complete REQUIRED_CLIPS REQUIRED_CLIPS :=
  (claim_C5 exExtract 99 sC3 "alice" ⟨0, by decide⟩ "a" (by decide) (by decide)).1

theorem dictPut_nil (k : String) (v : RegEntry) : dictPut k v [] = [(k, v)] := rfl

theorem dictPut_cons (k : String) (v : RegEntry) (p : String × RegEntry)
    (rest : List (String × RegEntry)) :
    dictPut k v (p :: rest) =
      if p.1 = k then (k, v) :: rest else p :: dictPut k v rest := rfl

/-- A key of the updated map is the written key or a key of the old map. -/
theorem dictPut_fst_mem (k : String) (v : RegEntry) :
    ∀ (r : List (String × RegEntry)) (x : String),
      x ∈ (dictPut k v r).map Prod.fst → x = k ∨ x ∈ r.map Prod.fst := by
  intro r
  induction r with
  | nil =>
      intro x hx
      rw [dictPut_nil] at hx
      simp at hx
      exact Or.inl hx
  | cons p rest ih =>
      intro x hx
      rw [dictPut_cons] at hx
      by_cases h : p.1 = k
      · rw [if_pos h] at hx
        rcases List.mem_cons.mp hx with hk | hr
        · exact Or.inl hk
        · exact Or.inr (List.mem_cons_of_mem p.1 hr)
      · rw [if_neg h] at hx
        rcases List.mem_cons.mp hx with hp | hr
        · exact Or.inr (hp ▸ List.mem_cons_self p.1 (rest.map Prod.fst))
        · rcases ih x hr with hk | hm
          · exact Or.inl hk
          · exact Or.inr (List.mem_cons_of_mem p.1 hm)

/-- An entry of the updated map is the written entry or an entry of the old
map. -/
theorem dictPut_mem_entry (k : String) (v : RegEntry) :
    ∀ (r : List (String × RegEntry)) (q : String × RegEntry),
      q ∈ dictPut k v r → q = (k, v) ∨ q ∈ r := by
  intro r
  induction r with
  | nil =>
      intro q hq
      rw [dictPut_nil] at hq
      exact Or.inl (List.mem_singleton.mp hq)
  | cons p rest ih =>
      intro q hq
      rw [dictPut_cons] at hq
      by_cases h : p.1 = k
      · rw [if_pos h] at hq
        rcases List.mem_cons.mp hq with hk | hr
        · exact Or.inl hk
        · exact Or.inr (List.mem_cons_of_mem p hr)
      · rw [if_neg h] at hq
        rcases List.mem_cons.mp hq with hp | hr
        · exact Or.inr (hp ▸ List.mem_cons_self p rest)
        · rcases ih q hr with hk | hm
          · exact Or.inl hk
          · exact Or.inr (List.mem_cons_of_mem p hm)

/-- Python dict assignment preserves key uniqueness. -/
theorem dictPut_nodup (k : String) (v : RegEntry) :
    ∀ r : List (String × RegEntry),
      (r.map Prod.fst).Nodup → ((dictPut k v r).map Prod.fst).Nodup := by
  intro r
  induction r with
  | nil => intro _; simp [dictPut_nil]
  | cons p rest ih =>
      intro hnd
      obtain ⟨hpm, hnd2⟩ := List.nodup_cons.mp hnd
      rw [dictPut_cons]
      by_cases h : p.1 = k
      · rw [if_pos h]
        exact List.nodup_cons.mpr ⟨h ▸ hpm, hnd2⟩
      · rw [if_neg h]
        refine List.nodup_cons.mpr ⟨?_, ih hnd2⟩
        intro hmem
        rcases dictPut_fst_mem k v rest p.1 hmem with heq | hin
        · exact h heq
        · exact hpm hin

/-- Writing an entry with a clip count in range preserves the registry
invariant. -/
theorem RegInvariant_dictPut (k : String) (e : RegEntry)
    (r : List (String × RegEntry)) (hinv : RegInvariant r)
    (h1 : 1 ≤ e.clips_count) (h2 : e.clips_count ≤ REQUIRED_CLIPS) :
    RegInvariant (dictPut k e r) := by
  refine ⟨dictPut_nodup k e r hinv.1, ?_⟩
  intro p hp
  rcases dictPut_mem_entry k e r p hp with hq | hq
  · rw [hq]; exact ⟨h1, h2⟩
  · exact hinv.2 p hq

/-- At most REQUIRED_CLIPS embeddings can be collected at commit time. -/
theorem extractedEmbs_length_le (extract : Clip → Option Emb) (s : ServerState)
    (u : String) : (extractedEmbs extract s u).length ≤ REQUIRED_CLIPS := by
  unfold extractedEmbs
  calc (List.filterMap (fun i => (s.slots u i).bind extract)
        (List.finRange REQUIRED_CLIPS)).length
      ≤ (List.finRange REQUIRED_CLIPS).length := List.length_filterMap_le _ _
    _ = REQUIRED_CLIPS := List.length_finRange REQUIRED_CLIPS

/-- Claim C9: every operation that writes the registry preserves the
data-model invariant (unique identity keys, clip count between 1 and
REQUIRED_CLIPS): any enroll request, any migration, and any delete; and at
commit time the written entry records exactly the number of successfully
extracted clips, which the commit guards force into [1, REQUIRED_CLIPS]. -/
theorem claim_C9 (extract : Clip → Option Emb) (now : Nat) (registryWriteOk : Bool)
    (s : ServerState) (u : String) (slot : Fin REQUIRED_CLIPS) (tr : TranscodeResult)
    (c : Clip) (u2 : String) (wavFiles : List Clip) (u3 : String)
    (hinv : RegInvariant s.registry) :
    RegInvariant (submit_clip extract now registryWriteOk s u slot tr).1.registry ∧
    (∀ (_ : REQUIRED_CLIPS ≤ filledCount (setSlot s u slot (some c)) u)
       (_ : extractedEmbs extract (setSlot s u slot (some c)) u ≠ []),
      (submit_clip extract now true s u slot (.ok c)).1.registry =
        dictPut u ⟨now, (extractedEmbs extract (setSlot s u slot (some c)) u).length,
          u ++ ".npy", none⟩ s.registry ∧
      1 ≤ (extractedEmbs extract (setSlot s u slot (some c)) u).length ∧
      (extractedEmbs extract (setSlot s u slot (some c)) u).length ≤ REQUIRED_CLIPS) ∧
    RegInvariant (migrate_speaker extract now s u2 wavFiles).1.registry ∧
    (∀ (_ : wavFiles ≠ [])
       (_ : (wavFiles.take CLIPS_TO_USE).filterMap extract ≠ []),
      (migrate_speaker extract now s u2 wavFiles).1.registry =
        dictPut u2 ⟨now, ((wavFiles.take CLIPS_TO_USE).filterMap extract).length,
          u2 ++ ".npy", some u2⟩ s.registry ∧
      1 ≤ ((wavFiles.take CLIPS_TO_USE).filterMap extract).length ∧
      ((wavFiles.take CLIPS_TO_USE).filterMap extract).length ≤ REQUIRED_CLIPS) ∧
    RegInvariant (delete_user s u3).1.registry := by
  have hmig4 : ((wavFiles.take CLIPS_TO_USE).filterMap extract).length ≤ REQUIRED_CLIPS := by
    calc ((wavFiles.take CLIPS_TO_USE).filterMap extract).length
        ≤ (wavFiles.take CLIPS_TO_USE).length := List.length_filterMap_le _ _
      _ ≤ CLIPS_TO_USE := List.length_take_le _ _
      _ ≤ REQUIRED_CLIPS := by norm_num [CLIPS_TO_USE, REQUIRED_CLIPS]
  refine ⟨?_, ?_, ?_, ?_, ?_⟩
  · cases tr with
    | failed leftover => cases leftover with
      | none => exact hinv
      | some junk => exact hinv
    | ok c0 =>
        by_cases hfull : REQUIRED_CLIPS ≤ filledCount (setSlot s u slot (some c0)) u
        · by_cases hlen : (extractedEmbs extract (setSlot s u slot (some c0)) u).length = 0
          · have hstep : submit_clip extract now registryWriteOk s u slot (.ok c0) =
                (setSlot s u slot (some c0), .insufficientData) := by
              simp only [submit_clip]
              rw [if_pos hfull, if_pos hlen]
            rw [hstep]; exact hinv
          · cases registryWriteOk with
            | false =>
                have hstep : submit_clip extract now false s u slot (.ok c0) =
                    ({ setSlot s u slot (some c0) with
                        embFiles := fun v =>
                          if v = u then some (npMean
                            (extractedEmbs extract (setSlot s u slot (some c0)) u))
                          else (setSlot s u slot (some c0)).embFiles v },
                     EnrollResult.storageError) := by
                  simp only [submit_clip]
                  rw [if_pos hfull, if_neg hlen]
                  rfl
                rw [hstep]; exact hinv
            | true =>
                have hstep : submit_clip extract now true s u slot (.ok c0) =
                    ({ setSlot s u slot (some c0) with
                        embFiles := fun v =>
                          if v = u then some (npMean
                            (extractedEmbs extract (setSlot s u slot (some c0)) u))
                          else (setSlot s u slot (some c0)).embFiles v,
                        registry := dictPut u
                          ⟨now, (extractedEmbs extract (setSlot s u slot (some c0)) u).length,
                            u ++ ".npy", none⟩ (setSlot s u slot (some c0)).registry },
                     EnrollResult.complete (filledCount (setSlot s u slot (some c0)) u)
                       REQUIRED_CLIPS) := by
                  simp only [submit_clip]
                  rw [if_pos hfull, if_neg hlen]
                  rfl
                rw [hstep]
                exact RegInvariant_dictPut u _ s.registry hinv
                  (Nat.pos_of_ne_zero hlen)
                  (extractedEmbs_length_le extract (setSlot s u slot (some c0)) u)
        · have hstep : submit_clip extract now registryWriteOk s u slot (.ok c0) =
              (setSlot s u slot (some c0),
               .progress (filledCount (setSlot s u slot (some c0)) u) REQUIRED_CLIPS) := by
            simp only [submit_clip]
            rw [if_neg hfull]
          rw [hstep]; exact hinv
  · intro hfull hne
    have hlen : ¬ (extractedEmbs extract (setSlot s u slot (some c)) u).length = 0 :=
      fun h0 => hne (List.length_eq_zero.mp h0)
    have hstep : submit_clip extract now true s u slot (.ok c) =
        ({ setSlot s u slot (some c) with
            embFiles := fun v =>
              if v = u then some (npMean
                (extractedEmbs extract (setSlot s u slot (some c)) u))
              else (setSlot s u slot (some c)).embFiles v,
            registry := dictPut u
              ⟨now, (extractedEmbs extract (setSlot s u slot (some c)) u).length,
                u ++ ".npy", none⟩ (setSlot s u slot (some c)).registry },
         EnrollResult.complete (filledCount (setSlot s u slot (some c)) u)
           REQUIRED_CLIPS) := by
      simp only [submit_clip]
      rw [if_pos hfull, if_neg hlen]
      rfl
    refine ⟨by rw [hstep]; rfl, Nat.pos_of_ne_zero hlen,
      extractedEmbs_length_le extract (setSlot s u slot (some c)) u⟩
  · by_cases h0 : wavFiles.length = 0
    · have hstep : migrate_speaker extract now s u2 wavFiles = (s, false) := by
        simp only [migrate_speaker]
        rw [if_pos h0]
      rw [hstep]; exact hinv
    · by_cases hle : ((wavFiles.take CLIPS_TO_USE).filterMap extract).length = 0
      · have hstep : migrate_speaker extract now s u2 wavFiles =
            ({ s with slots := migrateSlots s u2 (wavFiles.take CLIPS_TO_USE) }, false) := by
          simp only [migrate_speaker]
          rw [if_neg h0, if_pos hle]
        rw [hstep]; exact hinv
      · have hstep : migrate_speaker extract now s u2 wavFiles =
            ({ s with
                slots := migrateSlots s u2 (wavFiles.take CLIPS_TO_USE),
                embFiles := fun v =>
                  if v = u2 then some (npMean ((wavFiles.take CLIPS_TO_USE).filterMap extract))
                  else s.embFiles v,
                registry := dictPut u2
                  ⟨now, ((wavFiles.take CLIPS_TO_USE).filterMap extract).length,
                    u2 ++ ".npy", some u2⟩ s.registry }, true) := by
          simp only [migrate_speaker]
          rw [if_neg h0, if_neg hle]
        rw [hstep]
        exact RegInvariant_dictPut u2 _ s.registry hinv (Nat.pos_of_ne_zero hle) hmig4
  · intro hwne hene
    have hle : ¬ ((wavFiles.take CLIPS_TO_USE).filterMap extract).length = 0 :=
      fun h0 => hene (List.length_eq_zero.mp h0)
    have h0 : ¬ wavFiles.length = 0 := fun h0 => hwne (List.length_eq_zero.mp h0)
    have hstep : migrate_speaker extract now s u2 wavFiles =
        ({ s with
            slots := migrateSlots s u2 (wavFiles.take CLIPS_TO_USE),
            embFiles := fun v =>
              if v = u2 then some (npMean ((wavFiles.take CLIPS_TO_USE).filterMap extract))
              else s.embFiles v,
            registry := dictPut u2
              ⟨now, ((wavFiles.take CLIPS_TO_USE).filterMap extract).length,
                u2 ++ ".npy", some u2⟩ s.registry }, true) := by
      simp only [migrate_speaker]
      rw [if_neg h0, if_neg hle]
    exact ⟨by rw [hstep], Nat.pos_of_ne_zero hle, hmig4⟩
  · unfold delete_user
    by_cases h : u3 ∈ s.registry.map Prod.fst
    · rw [if_pos h]
      refine ⟨?_, ?_⟩
      · exact List.Nodup.sublist (List.Sublist.map Prod.fst (List.filter_sublist _)) hinv.1
      · intro p hp
        exact hinv.2 p (List.mem_of_mem_filter hp)
    · rw [if_neg h]
      exact hinv

/-- Witness for claim C9: deleting the only registered identity of a
registry that satisfies the invariant preserves it. -/
theorem claim_C9_witness :
    RegInvariant (delete_user sC9w "alice").1.registry :=
  (claim_C9 exExtract 0 true sC9w "alice" ⟨0, by decide⟩ (.ok "a") "a" "mig" ["w"] "alice"
    ⟨by decide, by decide⟩).2.2.2.2
